import Mathlib

/-!
Verification of the invoice-extraction pipeline (`data_extracter.py`,
`data_formatter.py`, `api/llm.py`).

Shallow embedding conventions:
  * Python strings are Lean `String` / `List Char`; `str.lower()` is
    `Char.toLower` mapped over the characters (ASCII-faithful).
  * Python `float` values are modelled as exact rationals `ℚ`; the decimal
    literals appearing in the spec's examples are exactly representable.
  * Fallible operations return `Option` / `Except`.
  * The external LLM and the JSON parser are oracle parameters (total
    functions), since their behaviour is outside the repository.
-/

/-- Python `str.strip()` on the character list: drop unicode whitespace from
both ends. -/
def pyStrip (l : List Char) : List Char :=
  ((l.dropWhile Char.isWhitespace).reverse.dropWhile Char.isWhitespace).reverse

/-- `leadsWith pat l` is true when `pat` is an initial segment of `l`
(Python's startswith at the character level). -/
def leadsWith : List Char → List Char → Bool
  | [], _ => true
  | _ :: _, [] => false
  | a :: as, b :: bs => a = b && leadsWith as bs

/-- `hasSub needle hay` is Python's `needle in hay` substring test
(the empty needle occurs in every string). -/
def hasSub (needle : List Char) : List Char → Bool
  | [] => leadsWith needle []
  | c :: rest => leadsWith needle (c :: rest) || hasSub needle rest

/-- `standard_name.lower() in product_name.lower()` from
`data_formatter.py` (the case-insensitive canonical-name substring test). -/
def substrLower (standardName productName : String) : Bool :=
  hasSub (standardName.data.map Char.toLower) (productName.data.map Char.toLower)

/-- Python `str.replace(pat, rep)`: left-to-right, non-overlapping
replacement of every occurrence.  (Our source only calls it with a
non-empty single-character pattern; for `pat = []` this returns the string
unchanged.) -/
def replaceAll (pat rep : List Char) : List Char → List Char
  | [] => []
  | c :: rest =>
    if pat ≠ [] ∧ leadsWith pat (c :: rest) = true then
      rep ++ replaceAll pat rep (rest.drop (pat.length - 1))
    else
      c :: replaceAll pat rep rest
termination_by l => l.length
decreasing_by
  · simp only [List.length_drop, List.length_cons]
    omega
  · simp only [List.length_cons]
    omega

/-- Numeric value of a digit string (most significant first). -/
def digitsVal (l : List Char) : ℕ :=
  l.foldl (fun a c => 10 * a + (c.toNat - 48)) 0

/-- Syntactic part of Python `float(s)` restricted to plain decimal
literals: optional surrounding whitespace, an optional sign, digits with at
most one decimal point and at least one digit.  Returns the sign flag and
the integral and fractional digit runs.  (Exponents, `inf`/`nan` and digit
underscores are not modelled; the pipeline's cleaned price strings never
contain them.) -/
def pyFloatParts (l0 : List Char) : Option (Bool × List Char × List Char) :=
  let l := pyStrip l0
  let neg : Bool := match l with
    | '-' :: _ => true
    | _ => false
  let l1 : List Char := match l with
    | '+' :: t => t
    | '-' :: t => t
    | _ => l
  let ip := l1.takeWhile Char.isDigit
  let r1 := l1.dropWhile Char.isDigit
  match r1 with
  | [] => if ip.isEmpty then none else some (neg, ip, [])
  | '.' :: fr =>
    let fd := fr.takeWhile Char.isDigit
    if (fr.dropWhile Char.isDigit).isEmpty then
      if ip.isEmpty && fd.isEmpty then none
      else some (neg, ip, fd)
    else none
  | _ => none

/-- Rational value of a parsed decimal literal. -/
def partsVal (neg : Bool) (ip fd : List Char) : ℚ :=
  (if neg then -1 else 1) * ((digitsVal ip : ℚ) + (digitsVal fd : ℚ) / (10 : ℚ) ^ fd.length)

/-- Model of Python `float(s)` on decimal literals, as an exact rational. -/
def pyFloatCore (l : List Char) : Option ℚ :=
  (pyFloatParts l).map (fun p => partsVal p.1 p.2.1 p.2.2)

/-- Model of Python `int(s)` on an already-stripped string: optional sign
followed by at least one digit, nothing else. -/
def pyIntParse (l : List Char) : Option ℤ :=
  let sgn : ℤ := match l with
    | '-' :: _ => -1
    | _ => 1
  let l1 : List Char := match l with
    | '+' :: t => t
    | '-' :: t => t
    | _ => l
  if l1.isEmpty then none
  else if l1.all Char.isDigit then some (sgn * (digitsVal l1 : ℤ))
  else none

/-- `convert_price_to_float` from `data_formatter.py`: falsy (empty) input
returns `None`; otherwise strip, delete every `"."`, turn `","` into `"."`
and parse as a float, with `None` on parse failure. -/
def convert_price_to_float (s : String) : Option ℚ :=
  if s = "" then none
  else pyFloatCore (replaceAll [','] ['.'] (replaceAll ['.'] [] (pyStrip s.data)))

/-- `convert_quantity_to_int` from `data_formatter.py`: falsy (empty) input
returns `None`; otherwise strip and parse as an integer, with `None` on
parse failure. -/
def convert_quantity_to_int (s : String) : Option ℤ :=
  if s = "" then none
  else pyIntParse (pyStrip s.data)

/-- A covering dictionary from the LLM output: `name?` is the `"name"` key
(`none` when the key is missing); `code` stands for all the other fields,
which the source copies verbatim. -/
structure Covering where
  name? : Option String
  code : String
deriving DecidableEq

/-- A product dictionary from the LLM output.  Each `?` field is `none`
when the corresponding key is missing (or, for `coverings?`, when the value
is not a list); `code` stands for the remaining fields copied verbatim. -/
structure Product where
  name? : Option String
  fullPrice? : Option String
  discountedPrice? : Option String
  quantity? : Option String
  coverings? : Option (List Covering)
  code : String
deriving DecidableEq

/-- A product after the numeric coercions of `normalize_product_data`:
price and quantity values are parsed numbers (inner `none` = unparseable). -/
structure NProduct where
  name? : Option String
  fullPrice? : Option (Option ℚ)
  discountedPrice? : Option (Option ℚ)
  quantity? : Option (Option ℤ)
  coverings? : Option (List Covering)
  code : String
deriving DecidableEq

/-- `normalize_product_name` from `data_formatter.py`: return the first
standard name whose lower-cased form occurs in the lower-cased product
name, or the original name when none matches. -/
def normalize_product_name (productName : String) (standardNames : List String) : String :=
  match standardNames with
  | [] => productName
  | s :: rest =>
    if substrLower s productName then s
    else normalize_product_name productName rest

/-- `normalize_product_data` from `data_formatter.py`: copy the product,
coercing `full_price`/`discounted_price` to float and `quantity` to int
when those keys are present. -/
def normalize_product_data (p : Product) : NProduct :=
  { name? := p.name?
  , fullPrice? := p.fullPrice?.map convert_price_to_float
  , discountedPrice? := p.discountedPrice?.map convert_price_to_float
  , quantity? := p.quantity?.map convert_quantity_to_int
  , coverings? := p.coverings?
  , code := p.code }

/-- `normalize_coverings` from `data_formatter.py`: keep a covering only
when it has a name matching some standard covering name (case-insensitive
substring), and rewrite its name with `normalize_product_name`. -/
def normalize_coverings : List Covering → List String → List Covering
  | [], _ => []
  | c :: rest, coveringsList =>
    match c.name? with
    | none => normalize_coverings rest coveringsList
    | some n =>
      if coveringsList.any (fun s => substrLower s n) then
        { c with name? := some (normalize_product_name n coveringsList) } ::
          normalize_coverings rest coveringsList
      else normalize_coverings rest coveringsList

/-- The inner product loop of `process_chunk_data`: skip products without a
name, keep those whose name matches some standard product name, coerce
their numeric fields, rewrite the name, and normalize the coverings list
when present. -/
def normalizeProducts (productsList coveringsList : List String) : List Product → List NProduct
  | [] => []
  | p :: rest =>
    match p.name? with
    | none => normalizeProducts productsList coveringsList rest
    | some n =>
      if productsList.any (fun s => substrLower s n) then
        (let np := normalize_product_data p
         { np with
           name? := some (normalize_product_name n productsList)
         , coverings? := np.coverings?.map (fun l => normalize_coverings l coveringsList) }) ::
          normalizeProducts productsList coveringsList rest
      else normalizeProducts productsList coveringsList rest

/-- A top-level invoice-group record: `products?` is `none` when the
`"products"` key is missing or not a list; `client` stands for the client
name, invoice date and any other fields copied verbatim. -/
structure Item where
  invoiceNumber? : Option String
  client : String
  products? : Option (List Product)
deriving DecidableEq

/-- A processed record: same non-product fields, with the filtered and
normalized products list. -/
structure NItem where
  invoiceNumber? : Option String
  client : String
  products : List NProduct
deriving DecidableEq

/-- The record loop of `process_chunk_data` (before the client-name LLM
call): skip records whose products field is missing or not a list, filter
and normalize each record's products, and keep the record only when at
least one product survives. -/
def processItemsLoop (productsList coveringsList : List String) : List Item → List NItem
  | [] => []
  | it :: rest =>
    match it.products? with
    | none => processItemsLoop productsList coveringsList rest
    | some ps =>
      let np := normalizeProducts productsList coveringsList ps
      if np = [] then processItemsLoop productsList coveringsList rest
      else
        { invoiceNumber? := it.invoiceNumber?, client := it.client, products := np } ::
          processItemsLoop productsList coveringsList rest

lemma leadsWith_single (ch c : Char) (l : List Char) :
    leadsWith [ch] (c :: l) = (decide (ch = c)) := by
  simp [leadsWith]

lemma replaceAll_del (ch : Char) (l : List Char) :
    replaceAll [ch] [] l = l.filter (fun c => decide (c ≠ ch)) := by
  induction l with
  | nil => simp [replaceAll]
  | cons c rest ih =>
    rw [replaceAll]
    rcases eq_or_ne ch c with h | h
    · subst h
      simp [leadsWith_single, List.filter, ih]
    · simp [leadsWith_single, h, Ne.symm h, List.filter, ih]

lemma replaceAll_swap (ch d : Char) (l : List Char) :
    replaceAll [ch] [d] l = l.map (fun c => if c = ch then d else c) := by
  induction l with
  | nil => simp [replaceAll]
  | cons c rest ih =>
    rw [replaceAll]
    rcases eq_or_ne ch c with h | h
    · subst h
      simp [leadsWith_single, ih]
    · simp [leadsWith_single, h, Ne.symm h, ih]

/-- `PAGES_PER_CHUNK` from `data_extracter.py`. -/
def PAGES_PER_CHUNK : ℕ := 10

/-- One chunk produced by the page loop: the 1-based inclusive page-range
label (`f"{i+1}-{min(i+PAGES_PER_CHUNK, len(pages_text))}"`) and the page
slice `pages_text[i:i+PAGES_PER_CHUNK]`. -/
structure Chunkk where
  label : String
  pages : List String
deriving DecidableEq

/-- The chunking loop of `extract_invoice_data`:
`for i in range(0, len(pages_text), PAGES_PER_CHUNK)` visits exactly the
indices `i = PAGES_PER_CHUNK * k` for `k < ⌈len / PAGES_PER_CHUNK⌉`, which
is how the strided range is rendered here; the slice `pages_text[i:i+C]`
is `drop i` then `take C`. -/
def chunkPages (pagesText : List String) : List Chunkk :=
  (List.range ((pagesText.length + (PAGES_PER_CHUNK - 1)) / PAGES_PER_CHUNK)).map fun k =>
    { label := toString (PAGES_PER_CHUNK * k + 1) ++ "-" ++
        toString (min (PAGES_PER_CHUNK * k + PAGES_PER_CHUNK) pagesText.length)
    , pages := (pagesText.drop (PAGES_PER_CHUNK * k)).take PAGES_PER_CHUNK }

/-- The per-chunk prompt of `extract_invoice_data` (chunk text is the
newline-join of the chunk's pages). -/
def chunkPrompt (mainPrompt : String) (c : Chunkk) : String :=
  mainPrompt ++ "\n\nExtract informations from the following invoices text (pages " ++
    c.label ++ "): \n---\n" ++ String.intercalate "\n" c.pages ++ "\n---"

/-- The failure modes of the extraction loop in `extract_invoice_data`:
empty LLM response for a chunk, unparsable JSON for a chunk (carrying the
decoder's message), or no chunks at all. -/
inductive ExtractErr where
  | providerEmpty (range : String)
  | jsonErr (range : String) (msg : String)
  | noChunks
deriving DecidableEq

/-- Bool success test for an `Except`. -/
def isOkE {ε β : Type} : Except ε β → Bool
  | .ok _ => true
  | .error _ => false

/-- The sequential chunk loop of `extract_invoice_data`: for each chunk
call the LLM, fail the whole run on an empty response, parse the JSON and
fail the whole run on a parse error, otherwise accumulate
`(pages label, parsed data)`.  The LLM and the JSON parser are oracle
parameters. -/
def runChunksE {α : Type} (llm : String → String) (parseJ : String → Except String α)
    (mainPrompt : String) : List Chunkk → Except ExtractErr (List (String × α))
  | [] => .ok []
  | c :: rest =>
    if llm (chunkPrompt mainPrompt c) = "" then .error (.providerEmpty c.label)
    else
      match parseJ (llm (chunkPrompt mainPrompt c)) with
      | .error e => .error (.jsonErr c.label e)
      | .ok d =>
        match runChunksE llm parseJ mainPrompt rest with
        | .error er => .error er
        | .ok l => .ok ((c.label, d) :: l)

/-- `extract_invoice_data`'s chunk phase from `data_extracter.py`: run the
loop over the chunked pages and fail when no chunk produced a result. -/
def extract_invoice_data {α : Type} (llm : String → String)
    (parseJ : String → Except String α) (mainPrompt : String) (pages : List String) :
    Except ExtractErr (List (String × α)) :=
  match runChunksE llm parseJ mainPrompt (chunkPages pages) with
  | .error e => .error e
  | .ok l => if l.isEmpty then .error .noChunks else .ok l

/-- A chunk succeeds when its LLM response is non-empty and parses. -/
def chunkOK {α : Type} (llm : String → String) (parseJ : String → Except String α)
    (mp : String) (c : Chunkk) : Prop :=
  llm (chunkPrompt mp c) ≠ "" ∧ isOkE (parseJ (llm (chunkPrompt mp c))) = true

/-- Outcome of the provider call inside `call_llm`: a response text, a
response whose `prompt_feedback.block_reason` is set, or a raised
transport/provider exception (carrying its `str(e)`). -/
inductive ProviderResp where
  | ok (text : String)
  | blocked (reason : String)
  | exn (msg : String)
deriving DecidableEq

/-- FastAPI `HTTPException`, reduced to status code and detail. -/
structure HTTPError where
  status : ℕ
  detail : String
deriving DecidableEq

/-- The missing-credential message of `call_llm`. -/
def GOOGLE_API_KEY_MSG : String :=
  "GOOGLE_API_KEY not found in environment variables. Please set it in your .env file."

/-- `call_llm` from `api/llm.py`.  A falsy (`None` or empty) API key fails
before any provider work.  The blocked-content `HTTPException` is raised
inside the `try` block whose `except Exception` clause wraps every
exception into the generic provider error, so the caller observes the
wrapped detail (Starlette's `str(HTTPException)` is
`"{status_code}: {detail}"`), not a distinct blocked error. -/
def call_llm (googleApiKey : Option String) (provider : ProviderResp) : Except HTTPError String :=
  if googleApiKey = none ∨ googleApiKey = some "" then
    .error ⟨500, GOOGLE_API_KEY_MSG⟩
  else
    match provider with
    | .ok t => .ok t
    | .blocked reason =>
      .error ⟨500, "Error during Gemini API call: 500: Request was blocked: " ++ reason⟩
    | .exn m => .error ⟨500, "Error during Gemini API call: " ++ m⟩

/-- A chunk dict as consumed by `process_chunk_data`: the pages label and
the `"data"` value (`none` when the key is missing or not a list). -/
structure ChunkIn where
  pagesLabel : String
  data? : Option (List Item)
deriving DecidableEq

/-- The error detail produced by the `except` clause around the client-name
normalization call in `process_chunk_data`. -/
def clientNormMsg (e : String) : String :=
  "Error during client names normalization in chunk: " ++ e

/-- `process_chunk_data` from `data_formatter.py`: filter/normalize the
records, and when any survive, send them through the client-name
normalization LLM call and parse its JSON reply, turning any exception
into the fatal chunk error.  `mkPrompt` abstracts the prompt built from
the clients list and the surviving records; `llm` and `parseItems` are
oracles whose error strings are the exceptions' `str(e)`. -/
def process_chunk_data (productsList coveringsList : List String)
    (mkPrompt : List NItem → String) (llm : String → Except String String)
    (parseItems : String → Except String (List NItem)) (chunk : ChunkIn) :
    Except String (List NItem) :=
  match chunk.data? with
  | none => .ok []
  | some data =>
    let pis := processItemsLoop productsList coveringsList data
    if pis = [] then .ok pis
    else
      match llm (mkPrompt pis) with
      | .error e => .error (clientNormMsg e)
      | .ok resp =>
        match parseItems resp with
        | .error e => .error (clientNormMsg e)
        | .ok out => .ok out

/-- Fifteen concrete page texts (the spec's end-to-end example). -/
def fifteenPages : List String :=
  ["p01", "p02", "p03", "p04", "p05", "p06", "p07", "p08",
   "p09", "p10", "p11", "p12", "p13", "p14", "p15"]

/-- A product whose name contains the canonical name `"DURIAN"`. -/
def witnessProduct : Product :=
  { name? := some "Rivestimento DURIAN extra", fullPrice? := none, discountedPrice? := none
  , quantity? := none, coverings? := none, code := "P1" }

/-- A record with one surviving product. -/
def witnessItem : Item :=
  { invoiceNumber? := some "123/2024", client := "ACME", products? := some [witnessProduct] }

/-- A chunk whose single record survives filtering. -/
def witnessChunkIn : ChunkIn := { pagesLabel := "1-10", data? := some [witnessItem] }

/-- A record whose only product matches no canonical name. -/
def witnessBadItem : Item :=
  { invoiceNumber? := some "5/2024", client := "ACME"
  , products? := some [{ name? := some "Unknown Fabric", fullPrice? := none
                       , discountedPrice? := none, quantity? := none
                       , coverings? := none, code := "P2" }] }

/-- A chunk in which no record survives filtering. -/
def witnessChunkEmpty : ChunkIn := { pagesLabel := "1-10", data? := some [witnessBadItem] }

/-- An item reaching `merge_items_by_invoice` (the post-LLM normalized
records): an optional invoice number, a `rest` field standing for all the
non-product fields, and a products list whose element type is opaque to
the merge. -/
structure MItem (α : Type) where
  invoiceNumber? : Option String
  rest : String
  products : List α
deriving DecidableEq

/-- Python truthiness of the `invoice_number` value: `None` and `""` are
falsy (`if not invoice_number: continue`). -/
def truthyInv : Option String → Option String
  | none => none
  | some s => if s = "" then none else some s

/-- Bool test for an item carrying a given invoice number. -/
def keyIs {α : Type} (inv : String) (m : MItem α) : Bool :=
  decide (m.invoiceNumber? = some inv)

/-- The in-place extension performed on the stored entry for a duplicate
invoice number (`invoice_dict[invoice_number]["products"].extend(...)`). -/
def extendProducts {α : Type} (inv : String) (ps : List α) (m : MItem α) : MItem α :=
  if m.invoiceNumber? = some inv then { m with products := m.products ++ ps } else m

/-- One iteration of the loop in `merge_items_by_invoice`, acting on the
insertion-ordered association list that models the Python dict. -/
def mergeStep {α : Type} (acc : List (MItem α)) (item : MItem α) : List (MItem α) :=
  match truthyInv item.invoiceNumber? with
  | none => acc
  | some inv =>
    if acc.any (keyIs inv) then acc.map (extendProducts inv item.products)
    else acc ++ [item]

/-- `merge_items_by_invoice` from `data_formatter.py`: fold the items into
a dict keyed by truthy invoice number (Python dicts preserve insertion
order, so the model is an ordered association list) and return its values. -/
def merge_items_by_invoice {α : Type} (items : List (MItem α)) : List (MItem α) :=
  items.foldl mergeStep []

/-- Concatenation, in encounter order, of the products of all items
carrying the given invoice number. -/
def prodsOf {α : Type} (inv : String) (items : List (MItem α)) : List α :=
  ((items.filter (keyIs inv)).map (fun i => i.products)).flatten

/-- Concrete items exercising the merge: a duplicated invoice number, an
item with no invoice number and one with an empty one. -/
def mergeWitnessItems : List (MItem ℕ) :=
  [ ⟨some "123/2024", "clientA", [1, 2]⟩
  , ⟨none, "noNumber", [9]⟩
  , ⟨some "", "emptyNumber", [8]⟩
  , ⟨some "123/2024", "clientB", [3]⟩
  , ⟨some "7/2025", "clientC", [4]⟩ ]

lemma truthyInv_eq_some {o : Option String} {v : String} (h : truthyInv o = some v) :
    o = some v ∧ v ≠ "" := by
  cases o with
  | none => exact Option.noConfusion h
  | some s =>
    by_cases hs : s = ""
    · rw [truthyInv, if_pos hs] at h
      exact Option.noConfusion h
    · rw [truthyInv, if_neg hs] at h
      obtain rfl : s = v := Option.some.inj h
      exact ⟨rfl, hs⟩

lemma extendProducts_key {α : Type} (inv : String) (ps : List α) (m : MItem α) :
    (extendProducts inv ps m).invoiceNumber? = m.invoiceNumber? := by
  unfold extendProducts
  split <;> rfl

lemma keyIs_extendProducts {α : Type} (inv inv' : String) (ps : List α) (m : MItem α) :
    keyIs inv (extendProducts inv' ps m) = keyIs inv m := by
  simp [keyIs, extendProducts_key]

lemma find?_map_extend {α : Type} (l : List (MItem α)) (inv inv' : String) (ps : List α) :
    (l.map (extendProducts inv' ps)).find? (keyIs inv) =
      (l.find? (keyIs inv)).map (extendProducts inv' ps) := by
  rw [List.find?_map]
  have hp : ((keyIs inv : MItem α → Bool) ∘ extendProducts inv' ps) = keyIs inv := by
    funext m
    simp [Function.comp, keyIs_extendProducts]
  rw [hp]

lemma mergeStep_skip {α : Type} (acc : List (MItem α)) (it : MItem α)
    (h : truthyInv it.invoiceNumber? = none) : mergeStep acc it = acc := by
  rw [mergeStep, h]

lemma mergeStep_dup {α : Type} (acc : List (MItem α)) (it : MItem α) (inv : String)
    (h : truthyInv it.invoiceNumber? = some inv) (hany : acc.any (keyIs inv) = true) :
    mergeStep acc it = acc.map (extendProducts inv it.products) := by
  rw [mergeStep, h]
  exact if_pos hany

lemma mergeStep_new {α : Type} (acc : List (MItem α)) (it : MItem α) (inv : String)
    (h : truthyInv it.invoiceNumber? = some inv) (hany : ¬ acc.any (keyIs inv) = true) :
    mergeStep acc it = acc ++ [it] := by
  rw [mergeStep, h]
  exact if_neg hany

lemma prodsOf_cons_ne {α : Type} (inv : String) (it : MItem α) (rest : List (MItem α))
    (h : it.invoiceNumber? ≠ some inv) : prodsOf inv (it :: rest) = prodsOf inv rest := by
  simp [prodsOf, List.filter_cons, keyIs, h]

lemma prodsOf_cons_eq {α : Type} (inv : String) (it : MItem α) (rest : List (MItem α))
    (h : it.invoiceNumber? = some inv) :
    prodsOf inv (it :: rest) = it.products ++ prodsOf inv rest := by
  simp [prodsOf, List.filter_cons, keyIs, h]

lemma key_of_find?_keyIs {α : Type} {l : List (MItem α)} {inv : String} {a : MItem α}
    (h : l.find? (keyIs inv) = some a) : a.invoiceNumber? = some inv := by
  have hp := List.find?_some h
  simpa [keyIs] using hp

lemma merge_loop_find {α : Type} (inv : String) (hinv : inv ≠ "") (items : List (MItem α)) :
    ∀ acc : List (MItem α),
    (∀ a, acc.find? (keyIs inv) = some a →
      (items.foldl mergeStep acc).find? (keyIs inv) =
        some { a with products := a.products ++ prodsOf inv items })
    ∧ (acc.find? (keyIs inv) = none →
      (items.foldl mergeStep acc).find? (keyIs inv) =
        (items.find? (keyIs inv)).map (fun f => { f with products := prodsOf inv items })) := by
  induction items with
  | nil =>
    intro acc
    constructor
    · intro a ha
      rw [List.foldl_nil, ha]
      simp [prodsOf]
    · intro ha
      rw [List.foldl_nil, ha, List.find?_nil]
      rfl
  | cons it rest ih =>
    intro acc
    cases htr : truthyInv it.invoiceNumber? with
    | none =>
      have hne : it.invoiceNumber? ≠ some inv := by
        intro hk
        rw [hk, truthyInv, if_neg hinv] at htr
        exact Option.noConfusion htr
      constructor
      · intro a ha
        rw [List.foldl_cons, mergeStep_skip acc it htr,
          (ih acc).1 a ha, prodsOf_cons_ne inv it rest hne]
      · intro ha
        rw [List.foldl_cons, mergeStep_skip acc it htr,
          (ih acc).2 ha, prodsOf_cons_ne inv it rest hne,
          List.find?_cons_of_neg _ (by simp [keyIs, hne])]
    | some inv' =>
      obtain ⟨hit, hinv'⟩ := truthyInv_eq_some htr
      by_cases heq : inv' = inv
      · subst heq
        constructor
        · intro a ha
          have hany : acc.any (keyIs inv') = true :=
            List.any_eq_true.mpr ⟨a, List.mem_of_find?_eq_some ha, List.find?_some ha⟩
          rw [List.foldl_cons, mergeStep_dup acc it inv' htr hany]
          have hga : extendProducts inv' it.products a =
              { a with products := a.products ++ it.products } := by
            rw [extendProducts, if_pos (key_of_find?_keyIs ha)]
          have ha' : (acc.map (extendProducts inv' it.products)).find? (keyIs inv') =
              some { a with products := a.products ++ it.products } := by
            rw [find?_map_extend, ha, Option.map_some', hga]
          rw [(ih _).1 _ ha', prodsOf_cons_eq inv' it rest hit]
          simp [List.append_assoc]
        · intro ha
          have hany : ¬ acc.any (keyIs inv') = true := by
            intro hc
            rcases List.any_eq_true.mp hc with ⟨x, hx, hpx⟩
            exact absurd hpx (by simpa using List.find?_eq_none.mp ha x hx)
          rw [List.foldl_cons, mergeStep_new acc it inv' htr hany]
          have hpit : keyIs inv' it = true := by simp [keyIs, hit]
          have ha' : ((acc ++ [it]).find? (keyIs inv')) = some it := by
            rw [List.find?_append, ha, Option.none_or]
            exact List.find?_cons_of_pos _ hpit
          rw [(ih _).1 it ha', prodsOf_cons_eq inv' it rest hit,
            List.find?_cons_of_pos _ hpit]
          rfl
      · have hne : it.invoiceNumber? ≠ some inv := by
          rw [hit]
          intro hk
          exact heq (Option.some.inj hk)
        have hfs : (mergeStep acc it).find? (keyIs inv) = acc.find? (keyIs inv) := by
          by_cases hany : acc.any (keyIs inv') = true
          · rw [mergeStep_dup acc it inv' htr hany, find?_map_extend]
            cases ha : acc.find? (keyIs inv) with
            | none => rfl
            | some a =>
              have hka : a.invoiceNumber? = some inv := key_of_find?_keyIs ha
              have hgaa : extendProducts inv' it.products a = a := by
                rw [extendProducts,
                  if_neg (by rw [hka]; intro hk; exact heq (Option.some.inj hk).symm)]
              rw [Option.map_some', hgaa]
          · rw [mergeStep_new acc it inv' htr hany, List.find?_append]
            have hnil : [it].find? (keyIs inv) = none := by
              rw [List.find?_eq_none]
              intro x hx hpx
              rw [List.mem_singleton.mp hx] at hpx
              exact hne (by simpa [keyIs] using hpx)
            rw [hnil, Option.or_none]
        constructor
        · intro a ha
          rw [List.foldl_cons, (ih _).1 a (by rw [hfs]; exact ha),
            prodsOf_cons_ne inv it rest hne]
        · intro ha
          rw [List.foldl_cons, (ih _).2 (by rw [hfs]; exact ha),
            prodsOf_cons_ne inv it rest hne,
            List.find?_cons_of_neg _ (by simp [keyIs, hne])]

lemma mergeStep_good {α : Type} (acc : List (MItem α)) (it : MItem α)
    (h1 : ∀ m ∈ acc, ∃ s, m.invoiceNumber? = some s ∧ s ≠ "")
    (h2 : (acc.map (fun m => m.invoiceNumber?)).Nodup) :
    (∀ m ∈ mergeStep acc it, ∃ s, m.invoiceNumber? = some s ∧ s ≠ "")
    ∧ ((mergeStep acc it).map (fun m => m.invoiceNumber?)).Nodup := by
  cases htr : truthyInv it.invoiceNumber? with
  | none =>
    rw [mergeStep_skip acc it htr]
    exact ⟨h1, h2⟩
  | some inv =>
    obtain ⟨hit, hinv⟩ := truthyInv_eq_some htr
    by_cases hany : acc.any (keyIs inv) = true
    · rw [mergeStep_dup acc it inv htr hany]
      have hkeys : (acc.map (extendProducts inv it.products)).map (fun m => m.invoiceNumber?) =
          acc.map (fun m => m.invoiceNumber?) := by
        rw [List.map_map]
        exact List.map_congr_left (fun a _ => extendProducts_key inv it.products a)
      constructor
      · intro m hm
        rcases List.mem_map.mp hm with ⟨x, hx, rfl⟩
        rcases h1 x hx with ⟨s, hs1, hs2⟩
        exact ⟨s, by rw [extendProducts_key, hs1], hs2⟩
      · rw [hkeys]
        exact h2
    · rw [mergeStep_new acc it inv htr hany]
      constructor
      · intro m hm
        rcases List.mem_append.mp hm with hm | hm
        · exact h1 m hm
        · rw [List.mem_singleton.mp hm]
          exact ⟨inv, hit, hinv⟩
      · rw [List.map_append, List.nodup_append]
        refine ⟨h2, by simp, ?_⟩
        intro a ha hb
        simp only [List.map_cons, List.map_nil, List.mem_singleton, hit] at hb
        rcases List.mem_map.mp ha with ⟨x, hx, rfl⟩
        apply hany
        apply List.any_eq_true.mpr
        exact ⟨x, hx, by simp [keyIs, hb]⟩

lemma merge_loop_good {α : Type} (items : List (MItem α)) :
    ∀ acc : List (MItem α),
    (∀ m ∈ acc, ∃ s, m.invoiceNumber? = some s ∧ s ≠ "") →
    (acc.map (fun m => m.invoiceNumber?)).Nodup →
    (∀ m ∈ items.foldl mergeStep acc, ∃ s, m.invoiceNumber? = some s ∧ s ≠ "")
    ∧ ((items.foldl mergeStep acc).map (fun m => m.invoiceNumber?)).Nodup := by
  induction items with
  | nil => intro acc h1 h2; exact ⟨h1, h2⟩
  | cons it rest ih =>
    intro acc h1 h2
    rw [List.foldl_cons]
    obtain ⟨g1, g2⟩ := mergeStep_good acc it h1 h2
    exact ih (mergeStep acc it) g1 g2

lemma normalize_product_name_find (n : String) (cl : List String) :
    normalize_product_name n cl = ((cl.find? (fun s => substrLower s n)).getD n) := by
  induction cl with
  | nil => rfl
  | cons s rest ih =>
    by_cases h : substrLower s n = true
    · simp [normalize_product_name, h]
    · simp [normalize_product_name, h, ih]

lemma normalize_coverings_filterMap (cs : List Covering) (cl : List String) :
    normalize_coverings cs cl = cs.filterMap (fun c =>
      match c.name? with
      | none => none
      | some n =>
        match cl.find? (fun s => substrLower s n) with
        | none => none
        | some s => some { c with name? := some s }) := by
  induction cs with
  | nil => rfl
  | cons c rest ih =>
    cases hn : c.name? with
    | none => simp [normalize_coverings, hn, List.filterMap_cons, ih]
    | some n =>
      cases hf : cl.find? (fun s => substrLower s n) with
      | none =>
        have hany : cl.any (fun s => substrLower s n) = false := by
          rw [List.any_eq_false]
          exact List.find?_eq_none.mp hf
        simp [normalize_coverings, hn, hany, List.filterMap_cons, hf, ih]
      | some s =>
        have hps := List.find?_some hf
        have hany : cl.any (fun t => substrLower t n) = true := by
          rw [List.any_eq_true]
          exact ⟨s, List.mem_of_find?_eq_some hf, hps⟩
        have hname : normalize_product_name n cl = s := by
          rw [normalize_product_name_find, hf]
          rfl
        simp [normalize_coverings, hn, hany, List.filterMap_cons, hf, hname, ih]

lemma normalizeProducts_filterMap (pl cl : List String) (ps : List Product) :
    normalizeProducts pl cl ps = ps.filterMap (fun p =>
      match p.name? with
      | none => none
      | some n =>
        match pl.find? (fun s => substrLower s n) with
        | none => none
        | some s =>
          some { name? := some s
               , fullPrice? := p.fullPrice?.map convert_price_to_float
               , discountedPrice? := p.discountedPrice?.map convert_price_to_float
               , quantity? := p.quantity?.map convert_quantity_to_int
               , coverings? := p.coverings?.map (fun l => normalize_coverings l cl)
               , code := p.code }) := by
  induction ps with
  | nil => rfl
  | cons p rest ih =>
    cases hn : p.name? with
    | none => simp [normalizeProducts, hn, List.filterMap_cons, ih]
    | some n =>
      cases hf : pl.find? (fun s => substrLower s n) with
      | none =>
        have hany : pl.any (fun s => substrLower s n) = false := by
          rw [List.any_eq_false]
          exact List.find?_eq_none.mp hf
        simp [normalizeProducts, hn, hany, List.filterMap_cons, hf, ih]
      | some s =>
        have hps := List.find?_some hf
        have hany : pl.any (fun t => substrLower t n) = true := by
          rw [List.any_eq_true]
          exact ⟨s, List.mem_of_find?_eq_some hf, hps⟩
        have hname : normalize_product_name n pl = s := by
          rw [normalize_product_name_find, hf]
          rfl
        simp [normalizeProducts, hn, hany, List.filterMap_cons, hf, hname,
          normalize_product_data, ih]

lemma processItemsLoop_filterMap (pl cl : List String) (data : List Item) :
    processItemsLoop pl cl data = data.filterMap (fun it =>
      match it.products? with
      | none => none
      | some ps =>
        if normalizeProducts pl cl ps = [] then none
        else some { invoiceNumber? := it.invoiceNumber?, client := it.client
                  , products := normalizeProducts pl cl ps }) := by
  induction data with
  | nil => rfl
  | cons it rest ih =>
    cases hp : it.products? with
    | none => simp [processItemsLoop, hp, List.filterMap_cons, ih]
    | some ps =>
      by_cases he : normalizeProducts pl cl ps = []
      · simp [processItemsLoop, hp, he, List.filterMap_cons, ih]
      · simp [processItemsLoop, hp, he, List.filterMap_cons, ih]

lemma processItemsLoop_products_ne_nil (pl cl : List String) (data : List Item) :
    ∀ out ∈ processItemsLoop pl cl data, out.products ≠ [] := by
  intro out h
  rw [processItemsLoop_filterMap] at h
  rcases List.mem_filterMap.mp h with ⟨it, _, heq⟩
  cases hp : it.products? with
  | none =>
    simp only [hp] at heq
    exact Option.noConfusion heq
  | some ps =>
    simp only [hp] at heq
    by_cases he : normalizeProducts pl cl ps = []
    · rw [if_pos he] at heq
      exact Option.noConfusion heq
    · rw [if_neg he] at heq
      have hout : ({ invoiceNumber? := it.invoiceNumber?, client := it.client
                   , products := normalizeProducts pl cl ps : NItem }) = out :=
        Option.some.inj heq
      rw [← hout]
      exact he

/-- C2: a product (and a covering) survives filtering exactly when its
lower-cased name contains the lower-cased form of some canonical name from
the respective reference list as a substring, and a survivor's name is
replaced by the first such canonical name in list order. -/
theorem name_filter_and_replace_spec :
    (∀ (n : String) (cl : List String),
      normalize_product_name n cl = ((cl.find? (fun s => substrLower s n)).getD n))
    ∧ (∀ (cs : List Covering) (cl : List String),
      normalize_coverings cs cl = cs.filterMap (fun c =>
        match c.name? with
        | none => none
        | some n =>
          match cl.find? (fun s => substrLower s n) with
          | none => none
          | some s => some { c with name? := some s }))
    ∧ (∀ (pl cl : List String) (ps : List Product),
      normalizeProducts pl cl ps = ps.filterMap (fun p =>
        match p.name? with
        | none => none
        | some n =>
          match pl.find? (fun s => substrLower s n) with
          | none => none
          | some s =>
            some { name? := some s
                 , fullPrice? := p.fullPrice?.map convert_price_to_float
                 , discountedPrice? := p.discountedPrice?.map convert_price_to_float
                 , quantity? := p.quantity?.map convert_quantity_to_int
                 , coverings? := p.coverings?.map (fun l => normalize_coverings l cl)
                 , code := p.code })) :=
  ⟨normalize_product_name_find, normalize_coverings_filterMap, normalizeProducts_filterMap⟩

/-- C7: a top-level record whose products field is missing or not a list
is skipped (the loop is total, not failing), and a record appears in the
processed output exactly when at least one of its products survives
filtering; every retained record has a non-empty products list. -/
theorem process_items_retention_spec (pl cl : List String) (data : List Item) :
    (processItemsLoop pl cl data = data.filterMap (fun it =>
      match it.products? with
      | none => none
      | some ps =>
        if normalizeProducts pl cl ps = [] then none
        else some { invoiceNumber? := it.invoiceNumber?, client := it.client
                  , products := normalizeProducts pl cl ps }))
    ∧ (∀ out ∈ processItemsLoop pl cl data, out.products ≠ []) :=
  ⟨processItemsLoop_filterMap pl cl data, processItemsLoop_products_ne_nil pl cl data⟩

/-- C5: price coercion strips whitespace, deletes every `"."`, maps `","`
to `"."` and parses a decimal number, yielding `none` (never `0`) on any
failure; `"1.234,56"` coerces to `1234.56`, while `""` and `"abc"` coerce
to `none`. -/
theorem convert_price_to_float_spec :
    (∀ s : String, convert_price_to_float s =
      pyFloatCore (((pyStrip s.data).filter (fun c => decide (c ≠ '.'))).map
        (fun c => if c = ',' then '.' else c)))
    ∧ convert_price_to_float "1.234,56" = some (1234.56 : ℚ)
    ∧ convert_price_to_float "" = none
    ∧ convert_price_to_float "abc" = none := by
  have hgen : ∀ s : String, convert_price_to_float s =
      pyFloatCore (((pyStrip s.data).filter (fun c => decide (c ≠ '.'))).map
        (fun c => if c = ',' then '.' else c)) := by
    intro s
    unfold convert_price_to_float
    rcases eq_or_ne s "" with h | h
    · subst h
      rfl
    · rw [if_neg h, replaceAll_del, replaceAll_swap]
  refine ⟨hgen, ?_, ?_, ?_⟩
  · rw [hgen]
    have hp : pyFloatParts
        (((pyStrip "1.234,56".data).filter (fun c => decide (c ≠ '.'))).map
          (fun c => if c = ',' then '.' else c)) =
        some (false, ['1', '2', '3', '4'], ['5', '6']) := by decide
    rw [pyFloatCore, hp]
    have h1 : digitsVal ['1', '2', '3', '4'] = 1234 := by decide
    have h2 : digitsVal ['5', '6'] = 56 := by decide
    simp only [Option.map_some', partsVal, h1, h2]
    norm_num
  · rw [hgen]
    have hp : pyFloatParts
        (((pyStrip "".data).filter (fun c => decide (c ≠ '.'))).map
          (fun c => if c = ',' then '.' else c)) = none := by decide
    rw [pyFloatCore, hp]
    rfl
  · rw [hgen]
    have hp : pyFloatParts
        (((pyStrip "abc".data).filter (fun c => decide (c ≠ '.'))).map
          (fun c => if c = ',' then '.' else c)) = none := by decide
    rw [pyFloatCore, hp]
    rfl

/-- C6: quantity coercion strips whitespace and parses an integer, yielding
`none` (never `0`) on any failure; `"3"` coerces to `3`, while `"3.5"` and
`""` coerce to `none`. -/
theorem convert_quantity_to_int_spec :
    (∀ s : String, convert_quantity_to_int s = pyIntParse (pyStrip s.data))
    ∧ convert_quantity_to_int "3" = some 3
    ∧ convert_quantity_to_int "3.5" = none
    ∧ convert_quantity_to_int "" = none := by
  have hgen : ∀ s : String, convert_quantity_to_int s = pyIntParse (pyStrip s.data) := by
    intro s
    unfold convert_quantity_to_int
    rcases eq_or_ne s "" with h | h
    · subst h
      simp [pyStrip, pyIntParse]
    · rw [if_neg h]
  exact ⟨hgen, by rw [hgen]; decide, by rw [hgen]; decide, by rw [hgen]; decide⟩

/-- C1: merging keeps at most one entry per invoice number, drops items
whose invoice number is missing or empty, and for each truthy invoice
number the (unique) merged entry is the first-seen item with its products
list replaced by the concatenation, in encounter order and without
deduplication, of the products of all same-numbered items, so its length
is the sum of those items' products-list lengths. -/
theorem merge_items_by_invoice_spec {α : Type} (items : List (MItem α)) (inv : String)
    (hinv : inv ≠ "") :
    ((merge_items_by_invoice items).map (fun m => m.invoiceNumber?)).Nodup
    ∧ (∀ m ∈ merge_items_by_invoice items, ∃ s, m.invoiceNumber? = some s ∧ s ≠ "")
    ∧ (merge_items_by_invoice items).find? (keyIs inv) =
        (items.find? (keyIs inv)).map (fun f => { f with products := prodsOf inv items })
    ∧ (∀ m, (merge_items_by_invoice items).find? (keyIs inv) = some m →
        m.products.length =
          ((items.filter (keyIs inv)).map (fun i => i.products.length)).sum) := by
  have hgood := merge_loop_good items [] (by simp) (by simp)
  have hfind := (merge_loop_find inv hinv items []).2 (by rw [List.find?_nil])
  refine ⟨hgood.2, hgood.1, hfind, ?_⟩
  intro m hm
  rw [merge_items_by_invoice, hfind] at hm
  cases hf : items.find? (keyIs inv) with
  | none =>
    rw [hf] at hm
    exact Option.noConfusion hm
  | some f =>
    rw [hf, Option.map_some'] at hm
    rw [← Option.some.inj hm]
    show (prodsOf inv items).length = _
    rw [prodsOf, List.length_flatten, List.map_map]
    rfl

/-- Witness for C1 at concrete items with invoice number `"123/2024"`. -/
theorem merge_items_by_invoice_spec_witness :
    "123/2024" ≠ "" ∧
    (((merge_items_by_invoice mergeWitnessItems).map (fun m => m.invoiceNumber?)).Nodup
    ∧ (∀ m ∈ merge_items_by_invoice mergeWitnessItems, ∃ s, m.invoiceNumber? = some s ∧ s ≠ "")
    ∧ (merge_items_by_invoice mergeWitnessItems).find? (keyIs "123/2024") =
        (mergeWitnessItems.find? (keyIs "123/2024")).map
          (fun f => { f with products := prodsOf "123/2024" mergeWitnessItems })
    ∧ (∀ m, (merge_items_by_invoice mergeWitnessItems).find? (keyIs "123/2024") = some m →
        m.products.length =
          ((mergeWitnessItems.filter (keyIs "123/2024")).map
            (fun i => i.products.length)).sum)) :=
  ⟨by decide, merge_items_by_invoice_spec mergeWitnessItems "123/2024" (by decide)⟩

lemma chunk_join_take (l : List String) (m : ℕ) :
    ((List.range m).map (fun k => (l.drop (PAGES_PER_CHUNK * k)).take PAGES_PER_CHUNK)).flatten
      = l.take (PAGES_PER_CHUNK * m) := by
  induction m with
  | zero => simp
  | succ m ih =>
    rw [List.range_succ, List.map_append, List.flatten_append, ih]
    simp only [List.map_cons, List.map_nil, List.flatten_cons, List.flatten_nil, List.append_nil]
    rw [← List.take_add, Nat.mul_succ]

lemma ceil_div_ppc (n : ℕ) :
    ⌈(n : ℚ) / (PAGES_PER_CHUNK : ℚ)⌉ =
      ((n + (PAGES_PER_CHUNK - 1)) / PAGES_PER_CHUNK : ℕ) := by
  show ⌈(n : ℚ) / (10 : ℚ)⌉ = ((n + 9) / 10 : ℕ)
  set c : ℕ := (n + 9) / 10 with hc
  have h1 : 10 * c ≤ n + 9 := by omega
  have h2 : n ≤ 10 * c := by omega
  rw [Int.ceil_eq_iff]
  constructor
  · rw [lt_div_iff₀ (by norm_num : (0 : ℚ) < 10)]
    have h1' : (10 : ℚ) * (c : ℚ) ≤ (n : ℚ) + 9 := by exact_mod_cast h1
    have hcast : (((c : ℤ) : ℚ) - 1) * 10 = 10 * (c : ℚ) - 10 := by push_cast; ring
    rw [hcast]
    linarith
  · rw [div_le_iff₀ (by norm_num : (0 : ℚ) < 10)]
    have h2' : (n : ℚ) ≤ (10 : ℚ) * (c : ℚ) := by exact_mod_cast h2
    have hcast : ((c : ℤ) : ℚ) * 10 = 10 * (c : ℚ) := by push_cast; ring
    rw [hcast]
    linarith

/-- C4: chunking 10 pages at a time produces exactly `⌈N/10⌉` chunks whose
page slices concatenate back to the original page sequence; chunk `k`
(0-based) is labeled with the 1-based inclusive range
`"10k+1-min(10k+10, N)"` and holds the corresponding consecutive page
slice, so the ranges are contiguous and non-overlapping; every chunk of a
non-empty input is non-empty and holds at most 10 pages. -/
theorem chunking_spec (pages : List String) (h : pages ≠ []) :
    (chunkPages pages).length = (pages.length + (PAGES_PER_CHUNK - 1)) / PAGES_PER_CHUNK
    ∧ (⌈(pages.length : ℚ) / (PAGES_PER_CHUNK : ℚ)⌉ =
        ((pages.length + (PAGES_PER_CHUNK - 1)) / PAGES_PER_CHUNK : ℕ))
    ∧ ((chunkPages pages).map (fun c => c.pages)).flatten = pages
    ∧ (∀ k, ∀ hk : k < (chunkPages pages).length,
        (chunkPages pages).get ⟨k, hk⟩ =
          { label := toString (PAGES_PER_CHUNK * k + 1) ++ "-" ++
              toString (min (PAGES_PER_CHUNK * k + PAGES_PER_CHUNK) pages.length)
          , pages := (pages.drop (PAGES_PER_CHUNK * k)).take PAGES_PER_CHUNK })
    ∧ (∀ c ∈ chunkPages pages, c.pages ≠ [] ∧ c.pages.length ≤ PAGES_PER_CHUNK) := by
  clear h
  refine ⟨by simp [chunkPages], ceil_div_ppc pages.length, ?_, ?_, ?_⟩
  · rw [chunkPages, List.map_map]
    have hcomp : ((fun c => c.pages) ∘ fun k =>
        ({ label := toString (PAGES_PER_CHUNK * k + 1) ++ "-" ++
             toString (min (PAGES_PER_CHUNK * k + PAGES_PER_CHUNK) pages.length)
         , pages := (pages.drop (PAGES_PER_CHUNK * k)).take PAGES_PER_CHUNK } : Chunkk)) =
        fun k => (pages.drop (PAGES_PER_CHUNK * k)).take PAGES_PER_CHUNK := rfl
    rw [hcomp, chunk_join_take]
    exact List.take_of_length_le
      (by show pages.length ≤ 10 * ((pages.length + 9) / 10); omega)
  · intro k hk
    simp [chunkPages]
  · intro c hc
    rw [chunkPages] at hc
    rcases List.mem_map.mp hc with ⟨k, hk, rfl⟩
    have hkm : k < (pages.length + (PAGES_PER_CHUNK - 1)) / PAGES_PER_CHUNK :=
      List.mem_range.mp hk
    have hlt : PAGES_PER_CHUNK * k < pages.length := by
      show 10 * k < pages.length
      have hk9 : k < (pages.length + 9) / 10 := hkm
      omega
    have hlen : ((pages.drop (PAGES_PER_CHUNK * k)).take PAGES_PER_CHUNK).length =
        min PAGES_PER_CHUNK (pages.length - PAGES_PER_CHUNK * k) := by
      simp [List.length_take, List.length_drop]
    constructor
    · refine List.ne_nil_of_length_pos ?_
      rw [hlen]
      show 0 < min 10 (pages.length - 10 * k)
      have hlt' : 10 * k < pages.length := hlt
      omega
    · rw [hlen]
      show min 10 (pages.length - 10 * k) ≤ 10
      omega

/-- Witness for C4 at the spec's 15-page example: two chunks labeled
`"1-10"` and `"11-15"`. -/
theorem chunking_spec_witness :
    fifteenPages ≠ []
    ∧ (chunkPages fifteenPages).map (fun c => c.label) = ["1-10", "11-15"]
    ∧ ((chunkPages fifteenPages).length =
        (fifteenPages.length + (PAGES_PER_CHUNK - 1)) / PAGES_PER_CHUNK
    ∧ (⌈(fifteenPages.length : ℚ) / (PAGES_PER_CHUNK : ℚ)⌉ =
        ((fifteenPages.length + (PAGES_PER_CHUNK - 1)) / PAGES_PER_CHUNK : ℕ))
    ∧ ((chunkPages fifteenPages).map (fun c => c.pages)).flatten = fifteenPages
    ∧ (∀ k, ∀ hk : k < (chunkPages fifteenPages).length,
        (chunkPages fifteenPages).get ⟨k, hk⟩ =
          { label := toString (PAGES_PER_CHUNK * k + 1) ++ "-" ++
              toString (min (PAGES_PER_CHUNK * k + PAGES_PER_CHUNK) fifteenPages.length)
          , pages := (fifteenPages.drop (PAGES_PER_CHUNK * k)).take PAGES_PER_CHUNK })
    ∧ (∀ c ∈ chunkPages fifteenPages, c.pages ≠ [] ∧ c.pages.length ≤ PAGES_PER_CHUNK)) :=
  ⟨by decide, by decide, chunking_spec fifteenPages (by decide)⟩

lemma runChunksE_head_empty {α : Type} (llm : String → String)
    (parseJ : String → Except String α) (mp : String) (c : Chunkk) (l : List Chunkk)
    (h : llm (chunkPrompt mp c) = "") :
    runChunksE llm parseJ mp (c :: l) = .error (.providerEmpty c.label) := by
  rw [runChunksE, if_pos h]

lemma runChunksE_head_parse {α : Type} (llm : String → String)
    (parseJ : String → Except String α) (mp : String) (c : Chunkk) (l : List Chunkk)
    (e : String) (h1 : ¬ llm (chunkPrompt mp c) = "")
    (h2 : parseJ (llm (chunkPrompt mp c)) = .error e) :
    runChunksE llm parseJ mp (c :: l) = .error (.jsonErr c.label e) := by
  rw [runChunksE, if_neg h1, h2]

lemma runChunksE_all_ok_append {α : Type} (llm : String → String)
    (parseJ : String → Except String α) (mp : String) (l₁ : List Chunkk)
    (hok : ∀ c ∈ l₁, chunkOK llm parseJ mp c) (l₂ : List Chunkk) (e : ExtractErr)
    (he : runChunksE llm parseJ mp l₂ = .error e) :
    runChunksE llm parseJ mp (l₁ ++ l₂) = .error e := by
  induction l₁ with
  | nil => simpa using he
  | cons c rest ih =>
    obtain ⟨h1, h2⟩ := hok c (List.mem_cons_self c rest)
    cases hp : parseJ (llm (chunkPrompt mp c)) with
    | error e' =>
      rw [hp] at h2
      exact absurd h2 (by simp [isOkE])
    | ok d =>
      have ihr := ih (fun c' hc' => hok c' (List.mem_cons_of_mem c hc'))
      rw [List.cons_append, runChunksE, if_neg h1, hp, ihr]

lemma runChunksE_fail_of_bad {α : Type} (llm : String → String)
    (parseJ : String → Except String α) (mp : String) :
    ∀ l : List Chunkk, (∃ c ∈ l, ¬ chunkOK llm parseJ mp c) →
    ∃ e, runChunksE llm parseJ mp l = .error e := by
  intro l
  induction l with
  | nil => rintro ⟨c, hc, -⟩; exact absurd hc (List.not_mem_nil c)
  | cons c rest ih =>
    rintro ⟨c', hc', hbad⟩
    by_cases h1 : llm (chunkPrompt mp c) = ""
    · exact ⟨_, runChunksE_head_empty llm parseJ mp c rest h1⟩
    · cases hp : parseJ (llm (chunkPrompt mp c)) with
      | error e => exact ⟨_, runChunksE_head_parse llm parseJ mp c rest e h1 hp⟩
      | ok d =>
        have hcok : chunkOK llm parseJ mp c := ⟨h1, by rw [hp]; rfl⟩
        have hc'rest : c' ∈ rest := by
          rcases List.mem_cons.mp hc' with rfl | hr
          · exact absurd hcok hbad
          · exact hr
        rcases ih ⟨c', hc'rest, hbad⟩ with ⟨e, he⟩
        refine ⟨e, ?_⟩
        rw [runChunksE, if_neg h1, hp, he]

lemma extract_eq_error {α : Type} (llm : String → String)
    (parseJ : String → Except String α) (mp : String) (pages : List String)
    (e : ExtractErr) (he : runChunksE llm parseJ mp (chunkPages pages) = .error e) :
    extract_invoice_data llm parseJ mp pages = .error e := by
  rw [extract_invoice_data, he]

/-- C3: in the chunk loop of `extract_invoice_data`, when every earlier
chunk succeeded, an empty LLM response for chunk `i` fails the whole run
with a provider error carrying that chunk's page range, and an unparsable
response fails it with a JSON error carrying that range; moreover if any
chunk fails, the run never returns a result (no partial-success mode). -/
theorem extract_chunk_failure_spec {α : Type} (llm : String → String)
    (parseJ : String → Except String α) (mp : String) (pages : List String) (i : ℕ)
    (hi : i < (chunkPages pages).length)
    (hpre : ∀ c ∈ (chunkPages pages).take i, chunkOK llm parseJ mp c) :
    (llm (chunkPrompt mp ((chunkPages pages).get ⟨i, hi⟩)) = "" →
      extract_invoice_data llm parseJ mp pages =
        .error (.providerEmpty ((chunkPages pages).get ⟨i, hi⟩).label))
    ∧ (∀ e, llm (chunkPrompt mp ((chunkPages pages).get ⟨i, hi⟩)) ≠ "" →
        parseJ (llm (chunkPrompt mp ((chunkPages pages).get ⟨i, hi⟩))) = .error e →
      extract_invoice_data llm parseJ mp pages =
        .error (.jsonErr ((chunkPages pages).get ⟨i, hi⟩).label e))
    ∧ (∀ c ∈ chunkPages pages, ¬ chunkOK llm parseJ mp c →
        ∀ res, extract_invoice_data llm parseJ mp pages ≠ .ok res) := by
  have hsplit : chunkPages pages =
      (chunkPages pages).take i ++
        ((chunkPages pages).get ⟨i, hi⟩ :: (chunkPages pages).drop (i + 1)) := by
    conv_lhs => rw [← List.take_append_drop i (chunkPages pages)]
    rw [List.drop_eq_getElem_cons hi]
    rfl
  refine ⟨?_, ?_, ?_⟩
  · intro hemp
    apply extract_eq_error
    conv_lhs => rw [hsplit]
    exact runChunksE_all_ok_append llm parseJ mp _ hpre _ _
      (runChunksE_head_empty llm parseJ mp _ _ hemp)
  · intro e hne hperr
    apply extract_eq_error
    conv_lhs => rw [hsplit]
    exact runChunksE_all_ok_append llm parseJ mp _ hpre _ _
      (runChunksE_head_parse llm parseJ mp _ _ e hne hperr)
  · intro c hc hbad res
    rcases runChunksE_fail_of_bad llm parseJ mp (chunkPages pages) ⟨c, hc, hbad⟩ with ⟨e, he⟩
    rw [extract_eq_error llm parseJ mp pages e he]
    exact fun hcontra => Except.noConfusion hcontra

/-- Witness for C3: a one-page document whose LLM returns the empty string
fails with a provider error naming pages `"1-1"`. -/
theorem extract_chunk_failure_witness :
    0 < (chunkPages ["pg"]).length ∧
    extract_invoice_data (fun _ => "") (fun _ => (Except.error "bad" : Except String ℕ))
      "" ["pg"] = .error (.providerEmpty "1-1") := by
  refine ⟨by decide, ?_⟩
  have happ := (extract_chunk_failure_spec (fun _ => "")
    (fun _ => (Except.error "bad" : Except String ℕ)) "" ["pg"] 0 (by decide)
    (by intro c hc; simp at hc)).1 rfl
  exact happ

/-- C8: evaluation of `call_llm` at its three failure causes.  The missing
or empty credential yields the distinct configuration error, but a
blocked-content response does NOT yield a distinct error: the blocked
`HTTPException` is raised inside `call_llm`'s own `try`/`except Exception`
block, so it is re-wrapped into the generic provider error and is
indistinguishable from a transport failure carrying the same message —
the first conjunct exhibits two different provider outcomes mapped to the
very same error value. -/
theorem call_llm_blocked_wrapped :
    call_llm (some "key") (ProviderResp.blocked "SAFETY")
      = call_llm (some "key") (ProviderResp.exn "500: Request was blocked: SAFETY")
    ∧ ProviderResp.blocked "SAFETY" ≠ ProviderResp.exn "500: Request was blocked: SAFETY"
    ∧ call_llm (some "key") (ProviderResp.blocked "SAFETY")
      = .error ⟨500, "Error during Gemini API call: 500: Request was blocked: SAFETY"⟩
    ∧ (∀ p, call_llm none p = .error ⟨500, GOOGLE_API_KEY_MSG⟩)
    ∧ (∀ p, call_llm (some "") p = .error ⟨500, GOOGLE_API_KEY_MSG⟩)
    ∧ (∀ t, call_llm (some "key") (ProviderResp.ok t) = .ok t)
    ∧ (∀ m, call_llm (some "key") (ProviderResp.exn m)
        = .error ⟨500, "Error during Gemini API call: " ++ m⟩) :=
  ⟨rfl, by decide, rfl, fun _ => rfl, fun _ => rfl, fun _ => rfl, fun _ => rfl⟩

lemma process_chunk_data_some (pl cl : List String) (mkPrompt : List NItem → String)
    (llm : String → Except String String) (parseItems : String → Except String (List NItem))
    (chunk : ChunkIn) (data : List Item) (hd : chunk.data? = some data) :
    process_chunk_data pl cl mkPrompt llm parseItems chunk =
      (if processItemsLoop pl cl data = [] then .ok (processItemsLoop pl cl data)
       else
         match llm (mkPrompt (processItemsLoop pl cl data)) with
         | .error e => .error (clientNormMsg e)
         | .ok resp =>
           match parseItems resp with
           | .error e => .error (clientNormMsg e)
           | .ok out => .ok out) := by
  rw [process_chunk_data, hd]

/-- C9: when a chunk has surviving records, a failure of the client-name
normalization LLM call, or a parse failure of its reply, makes
`process_chunk_data` raise the fatal chunk error; any successful result is
exactly the parsed LLM reply, never the unnormalized records passed
through. -/
theorem process_chunk_clientnorm_fatal (pl cl : List String)
    (mkPrompt : List NItem → String) (llm : String → Except String String)
    (parseItems : String → Except String (List NItem)) (chunk : ChunkIn) (data : List Item)
    (hd : chunk.data? = some data) (hne : processItemsLoop pl cl data ≠ []) :
    (∀ e, llm (mkPrompt (processItemsLoop pl cl data)) = .error e →
      process_chunk_data pl cl mkPrompt llm parseItems chunk = .error (clientNormMsg e))
    ∧ (∀ r e, llm (mkPrompt (processItemsLoop pl cl data)) = .ok r →
        parseItems r = .error e →
      process_chunk_data pl cl mkPrompt llm parseItems chunk = .error (clientNormMsg e))
    ∧ (∀ out, process_chunk_data pl cl mkPrompt llm parseItems chunk = .ok out →
        ∃ r, llm (mkPrompt (processItemsLoop pl cl data)) = .ok r ∧ parseItems r = .ok out) := by
  refine ⟨?_, ?_, ?_⟩
  · intro e he
    rw [process_chunk_data_some pl cl mkPrompt llm parseItems chunk data hd, if_neg hne, he]
  · intro r e hr hp
    rw [process_chunk_data_some pl cl mkPrompt llm parseItems chunk data hd, if_neg hne, hr]
    show (match parseItems r with
          | Except.error e => (Except.error (clientNormMsg e) : Except String (List NItem))
          | Except.ok out => Except.ok out) = Except.error (clientNormMsg e)
    rw [hp]
  · intro out hout
    rw [process_chunk_data_some pl cl mkPrompt llm parseItems chunk data hd, if_neg hne] at hout
    cases hl : llm (mkPrompt (processItemsLoop pl cl data)) with
    | error e =>
      rw [hl] at hout
      exact Except.noConfusion hout
    | ok r =>
      rw [hl] at hout
      have hout' : (match parseItems r with
          | Except.error e => (Except.error (clientNormMsg e) : Except String (List NItem))
          | Except.ok o => Except.ok o) = Except.ok out := hout
      cases hp : parseItems r with
      | error e =>
        rw [hp] at hout'
        exact Except.noConfusion hout'
      | ok o =>
        rw [hp] at hout'
        exact ⟨r, rfl, by rw [hp, Except.ok.inj hout']⟩

/-- Witness for C9: a chunk with one surviving record and an LLM oracle
that fails makes `process_chunk_data` return the fatal chunk error. -/
theorem process_chunk_clientnorm_fatal_witness :
    witnessChunkIn.data? = some [witnessItem]
    ∧ processItemsLoop ["DURIAN"] [] [witnessItem] ≠ []
    ∧ process_chunk_data ["DURIAN"] [] (fun _ => "") (fun _ => Except.error "boom")
        (fun _ => Except.error "parse") witnessChunkIn = .error (clientNormMsg "boom") :=
  ⟨rfl, by decide,
    (process_chunk_clientnorm_fatal ["DURIAN"] [] (fun _ => "")
      (fun _ => Except.error "boom") (fun _ => Except.error "parse") witnessChunkIn
      [witnessItem] rfl (by decide)).1 "boom" rfl⟩

/-- C10: when no record of a chunk survives product filtering,
`process_chunk_data` returns the empty list without consulting the LLM at
all — the result is the same for every LLM and parser oracle, so the
client-normalization error cannot occur. -/
theorem process_chunk_empty_skips_llm (pl cl : List String) (chunk : ChunkIn)
    (data : List Item) (hd : chunk.data? = some data)
    (he : processItemsLoop pl cl data = []) :
    ∀ (mkPrompt : List NItem → String) (llm : String → Except String String)
      (parseItems : String → Except String (List NItem)),
      process_chunk_data pl cl mkPrompt llm parseItems chunk = .ok [] := by
  intro mkPrompt llm parseItems
  rw [process_chunk_data_some pl cl mkPrompt llm parseItems chunk data hd, if_pos he, he]

/-- Witness for C10: a chunk whose only record has no surviving product
returns `[]` even under an LLM oracle that always fails. -/
theorem process_chunk_empty_skips_llm_witness :
    witnessChunkEmpty.data? = some [witnessBadItem]
    ∧ processItemsLoop ["DURIAN"] [] [witnessBadItem] = []
    ∧ process_chunk_data ["DURIAN"] [] (fun _ => "") (fun _ => Except.error "boom")
        (fun _ => Except.error "parse") witnessChunkEmpty = .ok [] :=
  ⟨rfl, by decide,
    process_chunk_empty_skips_llm ["DURIAN"] [] witnessChunkEmpty [witnessBadItem] rfl
      (by decide) (fun _ => "") (fun _ => Except.error "boom")
      (fun _ => Except.error "parse")⟩
